import Mathlib

/-!
# Arch-LLM: verification of the chat orchestration and markdown rendering core

A shallow embedding of the Rust sources of the Arch-LLM desktop client
(`src/utils.rs`, `src/state.rs`, `src/main.rs`) together with proofs about
the embedded functions.  Rust strings are modelled as `List Char`; the
`pulldown_cmark` event stream is modelled as a list of events, so the
renderers become total functions over arbitrary event lists (which covers
the event streams produced for arbitrary, possibly incomplete, markdown).
-/

namespace ArchLLM

/-- Rust `&str` / `String` values are modelled as lists of characters. -/
abbrev Str := List Char

/-- The double-quote character (written numerically to keep literals simple). -/
def quoteChar : Char := Char.ofNat 34

/-- The apostrophe character. -/
def aposChar : Char := Char.ofNat 39

/-- Whitespace test used by Rust's `str::trim` (modelled by Lean's
`Char.isWhitespace`, which covers space, tab, CR and LF). -/
def isWs (c : Char) : Bool := c.isWhitespace

/-- Remove leading whitespace, as in Rust `str::trim_start`. -/
def trimLeft (l : Str) : Str := l.dropWhile isWs

/-- Remove trailing whitespace, as in Rust `str::trim_end`. -/
def trimRight (l : Str) : Str := (l.reverse.dropWhile isWs).reverse

/-- Rust `str::trim`: remove leading and trailing whitespace. -/
def rustTrim (l : Str) : Str := trimRight (trimLeft l)

/-- Rust `str::starts_with` on strings. -/
def startsWith (p l : Str) : Bool := p.isPrefixOf l

/-- `normalize_url` from `src/utils.rs` lines 5-11: trim the input and
prepend `http://` unless the trimmed input already starts with `http://`
or `https://`. -/
def normalize_url (s : Str) : Str :=
  let t := rustTrim s
  if startsWith "http://".toList t || startsWith "https://".toList t then t
  else "http://".toList ++ t

/-! ## Trimming lemmas -/

theorem dropWhile_head_not {p : Char → Bool} :
    ∀ l : Str, ∀ a ∈ (l.dropWhile p).head?, p a = false := by
  intro l
  induction l with
  | nil => intro a ha; simp at ha
  | cons c rest ih =>
    intro a ha
    by_cases h : p c
    · rw [List.dropWhile_cons_of_pos h] at ha
      exact ih a ha
    · rw [List.dropWhile_cons_of_neg h] at ha
      simp only [List.head?_cons, Option.mem_def, Option.some.injEq] at ha
      subst ha
      simpa using h

theorem dropWhile_eq_self_of_head {p : Char → Bool} (l : Str)
    (h : ∀ a ∈ l.head?, p a = false) : l.dropWhile p = l := by
  cases l with
  | nil => rfl
  | cons c rest =>
    have hc : p c = false := h c (by simp)
    simp [List.dropWhile_cons, hc]

/-- Left-trimming is the identity on strings with a non-whitespace head. -/
theorem trimLeft_eq_self (l : Str) (h : ∀ a ∈ l.head?, isWs a = false) :
    trimLeft l = l :=
  dropWhile_eq_self_of_head l h

/-- The last character of a right-trimmed string is not whitespace
(expressed on the head of the reversal). -/
theorem trimRight_last_not_ws (l : Str) :
    ∀ a ∈ (trimRight l).reverse.head?, isWs a = false := by
  intro a ha
  rw [trimRight, List.reverse_reverse] at ha
  exact dropWhile_head_not l.reverse a ha

/-- Right-trimming is the identity on strings whose last character is not
whitespace. -/
theorem trimRight_eq_self (l : Str) (h : ∀ a ∈ l.reverse.head?, isWs a = false) :
    trimRight l = l := by
  rw [trimRight, dropWhile_eq_self_of_head l.reverse h, List.reverse_reverse]

/-- Right-trimming preserves a non-whitespace head. -/
theorem trimRight_head_not_ws (l : Str) (h : ∀ a ∈ l.head?, isWs a = false) :
    ∀ a ∈ (trimRight l).head?, isWs a = false := by
  have hpre : trimRight l <+: l := by
    rw [trimRight]
    have h1 : (l.reverse.dropWhile isWs).reverse <+: l.reverse.reverse :=
      List.reverse_prefix.mpr (List.dropWhile_suffix isWs)
    simpa using h1
  obtain ⟨t, ht⟩ := hpre
  intro a ha
  cases htr : trimRight l with
  | nil => rw [htr] at ha; simp at ha
  | cons c cs =>
    rw [htr] at ha
    simp only [List.head?_cons, Option.mem_def, Option.some.injEq] at ha
    subst ha
    apply h
    rw [← ht, htr]
    simp

/-- The last character of `rustTrim s` is not whitespace. -/
theorem rustTrim_last_not_ws (s : Str) :
    ∀ a ∈ (rustTrim s).reverse.head?, isWs a = false :=
  trimRight_last_not_ws (trimLeft s)

/-- The head character of `rustTrim s` is not whitespace. -/
theorem rustTrim_head_not_ws (s : Str) :
    ∀ a ∈ (rustTrim s).head?, isWs a = false :=
  trimRight_head_not_ws (trimLeft s) (dropWhile_head_not (p := isWs) s)

/-- `rustTrim` is the identity on strings with non-whitespace head and last
character. -/
theorem rustTrim_eq_self (l : Str) (hh : ∀ a ∈ l.head?, isWs a = false)
    (hl : ∀ a ∈ l.reverse.head?, isWs a = false) : rustTrim l = l := by
  rw [rustTrim, trimLeft_eq_self l hh, trimRight_eq_self l hl]

theorem isPrefixOf_append (p l : Str) : p.isPrefixOf (p ++ l) = true := by
  rw [List.isPrefixOf_iff_prefix]
  exact List.prefix_append p l

/-- The output of `normalize_url` starts with one of the two schemes. -/
theorem normalize_url_scheme (s : Str) :
    startsWith "http://".toList (normalize_url s) = true ∨
    startsWith "https://".toList (normalize_url s) = true := by
  rw [normalize_url]
  split
  · next hc =>
    rcases Bool.or_eq_true_iff.mp hc with h | h
    · exact Or.inl h
    · exact Or.inr h
  · exact Or.inl (isPrefixOf_append _ _)

/-- The output of `normalize_url` has a non-whitespace head ('h'). -/
theorem normalize_url_head_not_ws (s : Str) :
    ∀ a ∈ (normalize_url s).head?, isWs a = false := by
  rw [normalize_url]
  split
  · exact rustTrim_head_not_ws s
  · intro a ha
    have hh : ("http://".toList ++ rustTrim s).head? = some 'h' := rfl
    rw [hh] at ha
    simp only [Option.mem_def, Option.some.injEq] at ha
    subst ha
    decide

/-- The output of `normalize_url` has a non-whitespace last character. -/
theorem normalize_url_last_not_ws (s : Str) :
    ∀ a ∈ (normalize_url s).reverse.head?, isWs a = false := by
  rw [normalize_url]
  split
  · exact rustTrim_last_not_ws s
  · intro a ha
    rw [List.reverse_append] at ha
    cases htr : (rustTrim s).reverse with
    | nil =>
      rw [htr] at ha
      simp only [List.nil_append] at ha
      have : ("http://".toList).reverse.head? = some '/' := by decide
      rw [this] at ha
      simp only [Option.mem_def, Option.some.injEq] at ha
      subst ha
      decide
    | cons c cs =>
      rw [htr] at ha
      simp only [List.cons_append, List.head?_cons, Option.mem_def,
        Option.some.injEq] at ha
      subst ha
      exact rustTrim_last_not_ws s c (by rw [htr]; simp)

/-- C9: `normalize_url` always returns a string starting with `http://` or
`https://`, and `normalize_url` is idempotent. -/
theorem normalize_url_scheme_and_idempotent (s : Str) :
    (startsWith "http://".toList (normalize_url s) = true ∨
     startsWith "https://".toList (normalize_url s) = true) ∧
    normalize_url (normalize_url s) = normalize_url s := by
  refine ⟨normalize_url_scheme s, ?_⟩
  have htrim : rustTrim (normalize_url s) = normalize_url s :=
    rustTrim_eq_self _ (normalize_url_head_not_ws s) (normalize_url_last_not_ws s)
  rw [show normalize_url (normalize_url s) =
      (if startsWith "http://".toList (rustTrim (normalize_url s)) ||
          startsWith "https://".toList (rustTrim (normalize_url s)) then
        rustTrim (normalize_url s)
      else "http://".toList ++ rustTrim (normalize_url s)) from rfl, htrim]
  rcases normalize_url_scheme s with h | h
  · rw [h]; simp
  · rw [h]; simp

/-! ## Markdown renderer (`src/utils.rs` lines 13-154)

The `pulldown_cmark` parser is external to this repository; its output is
modelled as an arbitrary finite list of events.  Both renderers are folds
over that list, exactly mirroring the `for event in parser` loops. -/

/-- Heading levels of `pulldown_cmark::HeadingLevel`. -/
inductive HeadingLevel
  | h1 | h2 | h3 | h4 | h5 | h6
deriving DecidableEq

/-- `pulldown_cmark::CodeBlockKind`. -/
inductive CodeBlockKind
  | fenced (lang : Str)
  | indented
deriving DecidableEq

/-- The `pulldown_cmark::Tag` variants the source matches on; `other`
stands for every variant the source's wildcard arm ignores (paragraphs,
lists, tables, html blocks, ...). -/
inductive MdTag
  | codeBlock (kind : CodeBlockKind)
  | strong
  | emphasis
  | strikethrough
  | blockQuote
  | heading (level : HeadingLevel)
  | link
  | item
  | other
deriving DecidableEq

/-- The `pulldown_cmark::TagEnd` variants the source matches on. -/
inductive MdTagEnd
  | codeBlock
  | strong
  | emphasis
  | strikethrough
  | heading
  | blockQuote
  | link
  | item
  | other
deriving DecidableEq

/-- The `pulldown_cmark::Event` variants the source matches on; `other`
stands for the ignored variants (Html, InlineHtml, FootnoteReference,
TaskListMarker, ...). -/
inductive MdEvent
  | startTag (t : MdTag)
  | endTag (t : MdTagEnd)
  | text (s : Str)
  | code (s : Str)
  | softBreak
  | hardBreak
  | rule
  | other
deriving DecidableEq

/-- One character of `glib::markup_escape_text` (g_markup_escape_text):
`&`, `<`, `>`, `'` and `"` become entity references, everything else is
kept. -/
def escapeChar (c : Char) : Str :=
  if c = '&' then "&amp;".toList
  else if c = '<' then "&lt;".toList
  else if c = '>' then "&gt;".toList
  else if c = aposChar then "&apos;".toList
  else if c = quoteChar then "&quot;".toList
  else [c]

/-- `glib::markup_escape_text` over a whole string. -/
def markup_escape_text : Str → Str
  | [] => []
  | c :: rest => escapeChar c ++ markup_escape_text rest

/-- `MarkdownBlock` from `src/utils.rs` lines 13-16. -/
inductive MarkdownBlock
  | text (markup : Str)
  | code (language : Str) (body : Str)
deriving DecidableEq

/-- The size keyword chosen for a heading level (`src/utils.rs` lines 49-53
and 124-128). -/
def headingSize (level : HeadingLevel) : Str :=
  match level with
  | .h1 => "xx-large".toList
  | .h2 => "x-large".toList
  | _ => "large".toList

/-- The markup emitted when a heading opens: the result of
`format!("\n<span font_size=\"{}\" weight=\"bold\">", size)`. -/
def headingOpen (level : HeadingLevel) : Str :=
  "\n<span font_size=\"".toList ++ headingSize level ++ "\" weight=\"bold\">".toList

/-- The decorative horizontal-rule line (`src/utils.rs` lines 97 and 149). -/
def ruleText : Str := "\n───────────────────\n".toList

/-- The loop state of `parse_markdown`: the locals declared in
`src/utils.rs` lines 23-27. -/
structure PState where
  blocks : List MarkdownBlock
  current_text : Str
  in_code_block : Bool
  code_lang : Str
  current_code : Str
deriving DecidableEq

/-- Initial loop state of `parse_markdown`. -/
def initPState : PState := ⟨[], [], false, [], []⟩

/-- One iteration of the `for event in parser` loop of `parse_markdown`
(`src/utils.rs` lines 29-100), translated arm by arm.  Note that the
`TagEnd::Emphasis` arm pushes the opening tag `<i>` again, as the source
does on line 68. -/
def parseStep (st : PState) (e : MdEvent) : PState :=
  match e with
  | .startTag t =>
    match t with
    | .codeBlock kind =>
      { st with
        blocks := st.blocks ++
          (if st.current_text.isEmpty then [] else [.text st.current_text]),
        current_text := [],
        in_code_block := true,
        code_lang := match kind with | .fenced lang => lang | .indented => [] }
    | .strong => { st with current_text := st.current_text ++ "<b>".toList }
    | .emphasis => { st with current_text := st.current_text ++ "<i>".toList }
    | .strikethrough => { st with current_text := st.current_text ++ "<s>".toList }
    | .blockQuote => { st with current_text := st.current_text ++ "<blockquote>".toList }
    | .heading level => { st with current_text := st.current_text ++ headingOpen level }
    | .link => { st with current_text := st.current_text ++ "<u>".toList }
    | .item => { st with current_text := st.current_text ++ "  • ".toList }
    | .other => st
  | .endTag t =>
    match t with
    | .codeBlock =>
      { st with
        in_code_block := false,
        blocks := st.blocks ++ [.code st.code_lang (rustTrim st.current_code)],
        current_code := [],
        code_lang := [] }
    | .strong => { st with current_text := st.current_text ++ "</b>".toList }
    | .emphasis => { st with current_text := st.current_text ++ "<i>".toList }
    | .strikethrough => { st with current_text := st.current_text ++ "</s>".toList }
    | .heading => { st with current_text := st.current_text ++ "</span>\n".toList }
    | .blockQuote => { st with current_text := st.current_text ++ "</blockquote>\n".toList }
    | .link => { st with current_text := st.current_text ++ "</u>".toList }
    | .item => { st with current_text := st.current_text ++ "\n".toList }
    | .other => st
  | .text s =>
    if st.in_code_block then { st with current_code := st.current_code ++ s }
    else { st with current_text := st.current_text ++ markup_escape_text s }
  | .code s =>
    if st.in_code_block then { st with current_code := st.current_code ++ s }
    else
      { st with current_text :=
          st.current_text ++ "<tt>".toList ++ markup_escape_text s ++ "</tt>".toList }
  | .softBreak =>
    if st.in_code_block then { st with current_code := st.current_code ++ "\n".toList }
    else { st with current_text := st.current_text ++ "\n".toList }
  | .hardBreak =>
    if st.in_code_block then { st with current_code := st.current_code ++ "\n".toList }
    else { st with current_text := st.current_text ++ "\n".toList }
  | .rule => { st with current_text := st.current_text ++ ruleText }
  | .other => st

/-- `parse_markdown` from `src/utils.rs` lines 18-107: fold the event
stream, then flush the remaining text block (lines 102-104). -/
def parse_markdown (events : List MdEvent) : List MarkdownBlock :=
  let st := events.foldl parseStep initPState
  st.blocks ++ (if st.current_text.isEmpty then [] else [.text st.current_text])

/-- One iteration of the `for event in parser` loop of `markdown_to_pango`
(`src/utils.rs` lines 115-152).  Here too, `TagEnd::Emphasis` pushes `<i>`
again (source line 137). -/
def pangoStep (acc : Str) (e : MdEvent) : Str :=
  match e with
  | .startTag t =>
    match t with
    | .strong => acc ++ "<b>".toList
    | .emphasis => acc ++ "<i>".toList
    | .strikethrough => acc ++ "<s>".toList
    | .codeBlock _ => acc ++ "\n<tt>".toList
    | .blockQuote => acc ++ "<blockquote>".toList
    | .heading level => acc ++ headingOpen level
    | .link => acc ++ "<u>".toList
    | .item => acc ++ "  • ".toList
    | .other => acc
  | .endTag t =>
    match t with
    | .strong => acc ++ "</b>".toList
    | .emphasis => acc ++ "<i>".toList
    | .strikethrough => acc ++ "</s>".toList
    | .codeBlock => acc ++ "</tt>\n".toList
    | .heading => acc ++ "</span>\n".toList
    | .blockQuote => acc ++ "</blockquote>\n".toList
    | .link => acc ++ "</u>".toList
    | .item => acc ++ "\n".toList
    | .other => acc
  | .text s => acc ++ markup_escape_text s
  | .code s => acc ++ "<tt>".toList ++ markup_escape_text s ++ "</tt>".toList
  | .softBreak => acc ++ "\n".toList
  | .hardBreak => acc ++ "\n".toList
  | .rule => acc ++ ruleText
  | .other => acc

/-- `markdown_to_pango` from `src/utils.rs` lines 109-154. -/
def markdown_to_pango (events : List MdEvent) : Str :=
  events.foldl pangoStep []

/-! ## Safety of the emitted markup

A markup string is *safe* when it is a concatenation of (a) the fixed
style tags and entity references the renderer emits on purpose and (b)
characters other than `<`, `>` and `&`.  Every `<`, `>` or `&` in a safe
string therefore lies inside an intentionally emitted style tag or inside
an escape entity. -/

/-- The intentionally emitted style tags and the entities produced by
escaping. -/
def styleTokens : List Str :=
  ["<b>", "</b>", "<i>", "</i>", "<s>", "</s>", "<u>", "</u>",
   "<tt>", "</tt>", "<blockquote>", "</blockquote>", "</span>",
   "<span font_size=\"xx-large\" weight=\"bold\">",
   "<span font_size=\"x-large\" weight=\"bold\">",
   "<span font_size=\"large\" weight=\"bold\">",
   "&amp;", "&lt;", "&gt;", "&apos;", "&quot;"].map String.toList

/-- A character that needs no protection in markup. -/
def plainChar (c : Char) : Bool := !(c = '<' || c = '>' || c = '&')

/-- Safe markup: a concatenation of intentional style tokens and plain
characters. -/
inductive SafeMarkup : Str → Prop
  | nil : SafeMarkup []
  | tok (t : Str) (ht : t ∈ styleTokens) {rest : Str} (hr : SafeMarkup rest) :
      SafeMarkup (t ++ rest)
  | chr (c : Char) (hc : plainChar c = true) {rest : Str} (hr : SafeMarkup rest) :
      SafeMarkup (c :: rest)

theorem SafeMarkup.append {a b : Str} (ha : SafeMarkup a) (hb : SafeMarkup b) :
    SafeMarkup (a ++ b) := by
  induction ha with
  | nil => simpa using hb
  | tok t ht hr ih =>
    rw [List.append_assoc]
    exact SafeMarkup.tok t ht ih
  | chr c hc hr ih =>
    rw [List.cons_append]
    exact SafeMarkup.chr c hc ih

theorem safeMarkup_token {t : Str} (ht : t ∈ styleTokens) : SafeMarkup t := by
  have h := SafeMarkup.tok t ht SafeMarkup.nil
  simpa using h

theorem safeMarkup_of_all_plain {l : Str} (h : l.all plainChar = true) :
    SafeMarkup l := by
  induction l with
  | nil => exact SafeMarkup.nil
  | cons c rest ih =>
    rw [List.all_cons, Bool.and_eq_true] at h
    exact SafeMarkup.chr c h.1 (ih h.2)

/-- Convenience form: a string that splits into two safe parts is safe. -/
theorem safeMarkup_parts (a b : Str) {l : Str} (he : l = a ++ b)
    (ha : SafeMarkup a) (hb : SafeMarkup b) : SafeMarkup l :=
  he ▸ SafeMarkup.append ha hb

theorem safeMarkup_escapeChar (c : Char) : SafeMarkup (escapeChar c) := by
  rw [escapeChar]
  split_ifs with h1 h2 h3 h4 h5
  · exact safeMarkup_token (by decide)
  · exact safeMarkup_token (by decide)
  · exact safeMarkup_token (by decide)
  · exact safeMarkup_token (by decide)
  · exact safeMarkup_token (by decide)
  · refine SafeMarkup.chr c ?_ SafeMarkup.nil
    rw [plainChar]
    simp [h1, h2, h3]

theorem safeMarkup_escape (s : Str) : SafeMarkup (markup_escape_text s) := by
  induction s with
  | nil => exact SafeMarkup.nil
  | cons c rest ih =>
    rw [markup_escape_text]
    exact SafeMarkup.append (safeMarkup_escapeChar c) ih

theorem safeMarkup_headingOpen (level : HeadingLevel) :
    SafeMarkup (headingOpen level) := by
  cases level with
  | h1 =>
    rw [show headingOpen HeadingLevel.h1 =
      '\n' :: "<span font_size=\"xx-large\" weight=\"bold\">".toList from by decide]
    exact SafeMarkup.chr _ (by decide) (safeMarkup_token (by decide))
  | h2 =>
    rw [show headingOpen HeadingLevel.h2 =
      '\n' :: "<span font_size=\"x-large\" weight=\"bold\">".toList from by decide]
    exact SafeMarkup.chr _ (by decide) (safeMarkup_token (by decide))
  | h3 =>
    rw [show headingOpen HeadingLevel.h3 =
      '\n' :: "<span font_size=\"large\" weight=\"bold\">".toList from by decide]
    exact SafeMarkup.chr _ (by decide) (safeMarkup_token (by decide))
  | h4 =>
    rw [show headingOpen HeadingLevel.h4 =
      '\n' :: "<span font_size=\"large\" weight=\"bold\">".toList from by decide]
    exact SafeMarkup.chr _ (by decide) (safeMarkup_token (by decide))
  | h5 =>
    rw [show headingOpen HeadingLevel.h5 =
      '\n' :: "<span font_size=\"large\" weight=\"bold\">".toList from by decide]
    exact SafeMarkup.chr _ (by decide) (safeMarkup_token (by decide))
  | h6 =>
    rw [show headingOpen HeadingLevel.h6 =
      '\n' :: "<span font_size=\"large\" weight=\"bold\">".toList from by decide]
    exact SafeMarkup.chr _ (by decide) (safeMarkup_token (by decide))

/-- A block is safe when its markup (if it is a text block) is safe; code
blocks carry raw text for a non-markup code widget by design. -/
def BlockSafe : MarkdownBlock → Prop
  | .text t => SafeMarkup t
  | .code _ _ => True

/-- Invariant of the `parse_markdown` loop: the pending text and every
flushed text block are safe. -/
def PInv (st : PState) : Prop :=
  SafeMarkup st.current_text ∧ ∀ b ∈ st.blocks, BlockSafe b

theorem pinv_blocks_append_text {st : PState} (h : PInv st) :
    ∀ b ∈ st.blocks ++ (if st.current_text.isEmpty then [] else [.text st.current_text]),
      BlockSafe b := by
  intro b hb
  rw [List.mem_append] at hb
  rcases hb with hb | hb
  · exact h.2 b hb
  · split at hb
    · simp at hb
    · simp only [List.mem_singleton] at hb
      subst hb
      exact h.1

theorem pinv_parseStep {st : PState} (e : MdEvent) (h : PInv st) :
    PInv (parseStep st e) := by
  obtain ⟨hct, hbl⟩ := h
  cases e with
  | startTag t =>
    cases t with
    | codeBlock kind =>
      refine ⟨SafeMarkup.nil, ?_⟩
      exact pinv_blocks_append_text ⟨hct, hbl⟩
    | strong => exact ⟨SafeMarkup.append hct (safeMarkup_token (by decide)), hbl⟩
    | emphasis => exact ⟨SafeMarkup.append hct (safeMarkup_token (by decide)), hbl⟩
    | strikethrough => exact ⟨SafeMarkup.append hct (safeMarkup_token (by decide)), hbl⟩
    | blockQuote => exact ⟨SafeMarkup.append hct (safeMarkup_token (by decide)), hbl⟩
    | heading level => exact ⟨SafeMarkup.append hct (safeMarkup_headingOpen level), hbl⟩
    | link => exact ⟨SafeMarkup.append hct (safeMarkup_token (by decide)), hbl⟩
    | item => exact ⟨SafeMarkup.append hct (safeMarkup_of_all_plain (by decide)), hbl⟩
    | other => exact ⟨hct, hbl⟩
  | endTag t =>
    cases t with
    | codeBlock =>
      refine ⟨hct, ?_⟩
      intro b hb
      simp only [parseStep] at hb
      rw [List.mem_append] at hb
      rcases hb with hb | hb
      · exact hbl b hb
      · simp only [List.mem_singleton] at hb
        subst hb
        trivial
    | strong => exact ⟨SafeMarkup.append hct (safeMarkup_token (by decide)), hbl⟩
    | emphasis => exact ⟨SafeMarkup.append hct (safeMarkup_token (by decide)), hbl⟩
    | strikethrough => exact ⟨SafeMarkup.append hct (safeMarkup_token (by decide)), hbl⟩
    | heading =>
      exact ⟨SafeMarkup.append hct
        (safeMarkup_parts "</span>".toList "\n".toList (by decide)
          (safeMarkup_token (by decide)) (safeMarkup_of_all_plain (by decide))), hbl⟩
    | blockQuote =>
      exact ⟨SafeMarkup.append hct
        (safeMarkup_parts "</blockquote>".toList "\n".toList (by decide)
          (safeMarkup_token (by decide)) (safeMarkup_of_all_plain (by decide))), hbl⟩
    | link => exact ⟨SafeMarkup.append hct (safeMarkup_token (by decide)), hbl⟩
    | item => exact ⟨SafeMarkup.append hct (safeMarkup_of_all_plain (by decide)), hbl⟩
    | other => exact ⟨hct, hbl⟩
  | text s =>
    rw [parseStep]
    split
    · exact ⟨hct, hbl⟩
    · exact ⟨SafeMarkup.append hct (safeMarkup_escape s), hbl⟩
  | code s =>
    rw [parseStep]
    split
    · exact ⟨hct, hbl⟩
    · refine ⟨?_, hbl⟩
      exact SafeMarkup.append (SafeMarkup.append
        (SafeMarkup.append hct (safeMarkup_token (by decide)))
        (safeMarkup_escape s)) (safeMarkup_token (by decide))
  | softBreak =>
    rw [parseStep]
    split
    · exact ⟨hct, hbl⟩
    · exact ⟨SafeMarkup.append hct (safeMarkup_of_all_plain (by decide)), hbl⟩
  | hardBreak =>
    rw [parseStep]
    split
    · exact ⟨hct, hbl⟩
    · exact ⟨SafeMarkup.append hct (safeMarkup_of_all_plain (by decide)), hbl⟩
  | rule => exact ⟨SafeMarkup.append hct (safeMarkup_of_all_plain (by decide)), hbl⟩
  | other => exact ⟨hct, hbl⟩

theorem pinv_foldl (events : List MdEvent) :
    ∀ st : PState, PInv st → PInv (events.foldl parseStep st) := by
  induction events with
  | nil => intro st h; exact h
  | cons e rest ih =>
    intro st h
    exact ih (parseStep st e) (pinv_parseStep e h)

/-- The concatenation of the markup text of the text blocks in a block
sequence (the text the markup widgets will receive). -/
def concatTextMarkup : List MarkdownBlock → Str
  | [] => []
  | .text t :: bs => t ++ concatTextMarkup bs
  | .code _ _ :: bs => concatTextMarkup bs

theorem safeMarkup_concat {bs : List MarkdownBlock}
    (h : ∀ b ∈ bs, BlockSafe b) : SafeMarkup (concatTextMarkup bs) := by
  induction bs with
  | nil => exact SafeMarkup.nil
  | cons b rest ih =>
    have hrest : SafeMarkup (concatTextMarkup rest) :=
      ih fun x hx => h x (List.mem_cons_of_mem b hx)
    cases b with
    | text t =>
      exact SafeMarkup.append (h _ (List.mem_cons_self _ _)) hrest
    | code lang body => exact hrest

/-- C1: `parse_markdown` is a total function of the event stream (it is
defined by structural recursion over the events, hence terminates for
every input, including event streams of syntactically incomplete
markdown), and the concatenated markup text of the blocks it returns is
safe: every `<`, `>` or `&` lies inside an intentionally emitted style
tag or escape entity. -/
theorem parse_markdown_total_and_safe (events : List MdEvent) :
    SafeMarkup (concatTextMarkup (parse_markdown events)) := by
  have hinv : PInv (events.foldl parseStep initPState) :=
    pinv_foldl events initPState ⟨SafeMarkup.nil, by intro b hb; simp [initPState] at hb⟩
  exact safeMarkup_concat (pinv_blocks_append_text hinv)

/-- C2 counterexample evidence: on the event stream of the markdown
input `*x*` (paragraph wrapping an emphasis span), both renderers close
the emphasis span with a second opening tag `<i>` instead of `</i>`
(source: `src/utils.rs` lines 68 and 137). -/
theorem emphasis_end_emits_opening_tag :
    markdown_to_pango
      [MdEvent.startTag MdTag.other, MdEvent.startTag MdTag.emphasis,
       MdEvent.text "x".toList, MdEvent.endTag MdTagEnd.emphasis,
       MdEvent.endTag MdTagEnd.other] = "<i>x<i>".toList ∧
    parse_markdown
      [MdEvent.startTag MdTag.other, MdEvent.startTag MdTag.emphasis,
       MdEvent.text "x".toList, MdEvent.endTag MdTagEnd.emphasis,
       MdEvent.endTag MdTagEnd.other] = [MarkdownBlock.text "<i>x<i>".toList] ∧
    "<i>x<i>".toList ≠ "<i>x</i>".toList := by
  refine ⟨by decide, by decide, by decide⟩

/-! ## Chat data model (`src/state.rs`, `src/main.rs`)

`ollama_rs::ChatMessage` is a role/content pair; `ChatHistory` is the
persisted history entry. `Profile` carries the fields `main.rs` reads
(including the `id` used to key the per-profile memory file). -/

/-- Message roles of `ollama_rs::generation::chat::ChatMessage`. -/
inductive Role
  | system
  | user
  | assistant
deriving DecidableEq

/-- A chat message. -/
structure ChatMessage where
  role : Role
  content : Str
deriving DecidableEq

/-- `ChatMessage::system` in `ollama_rs`. -/
def ChatMessage.system (s : Str) : ChatMessage := ⟨Role.system, s⟩

/-- `ChatMessage::user` in `ollama_rs`. -/
def ChatMessage.user (s : Str) : ChatMessage := ⟨Role.user, s⟩

/-- `ChatMessage::assistant` in `ollama_rs`. -/
def ChatMessage.assistant (s : Str) : ChatMessage := ⟨Role.assistant, s⟩

/-- `ChatHistory` from `src/state.rs` lines 54-59. -/
structure ChatHistory where
  id : Str
  title : Str
  messages : List ChatMessage
deriving DecidableEq

/-- The profile fields `main.rs` line 1398 reads into `profile_info`:
`(id, first_name, last_name, location, bio)`. -/
structure ProfileInfo where
  id : Str
  first_name : Str
  last_name : Str
  location : Str
  bio : Str
deriving DecidableEq

/-- The per-profile memory files, keyed by profile id: `read fsState id`
models `fs::read_to_string(memory_path.join(format!("{}.txt", id)))`,
with `none` for a read error (missing file). -/
abbrev MemoryFs := Str → Option Str

/-- The system prompt synthesized at send time (`src/main.rs` lines
1402-1425): the agent's `system_prompt`, then — when a profile is active —
a `User Profile` section with the name line (when first or last name is
non-empty), the location and bio lines (when non-empty), and the
long-term memory blob (when the file reads successfully and its trimmed
content is non-empty). -/
def buildSystemPrompt (agentPrompt : Str) (profile_info : Option ProfileInfo)
    (memFs : MemoryFs) : Str :=
  match profile_info with
  | none => agentPrompt
  | some p =>
    let sp := agentPrompt ++ "\n\n---\nUser Profile:\n".toList
    let sp := if !p.first_name.isEmpty || !p.last_name.isEmpty then
        sp ++ "Name: ".toList ++ p.first_name ++ " ".toList ++ p.last_name ++ "\n".toList
      else sp
    let sp := if !p.location.isEmpty then
        sp ++ "Location: ".toList ++ p.location ++ "\n".toList
      else sp
    let sp := if !p.bio.isEmpty then
        sp ++ "Bio: ".toList ++ p.bio ++ "\n".toList
      else sp
    match memFs p.id with
    | some memory =>
      if !(rustTrim memory).isEmpty then
        sp ++ "\nLong-term Memory of User:\n".toList ++ memory
      else sp
    | none => sp

/-- The message-list composition performed inside the request task before
the stream is opened (`src/main.rs` lines 1402-1429): synthesize and push
a System message when the conversation is empty, then push the User
message. -/
def composeSend (messages : List ChatMessage) (agentPrompt : Str)
    (profile_info : Option ProfileInfo) (memFs : MemoryFs) (text : Str) :
    List ChatMessage :=
  let m1 := if messages.isEmpty then
      messages ++ [ChatMessage.system (buildSystemPrompt agentPrompt profile_info memFs)]
    else messages
  m1 ++ [ChatMessage.user text]

/-! ## Reachable conversations (for the System-message invariant of C3)

The conversation (`AppState.messages`) is mutated only at:
line 1206 / line 1217 (cleared on new chat or agent switch), line 1121
(replaced wholesale by a history snapshot), lines 1402-1429 (send
composition), line 1324 (assistant reply appended, with the snapshot
pushed into the history at line 1333). -/

/-- The conversation-relevant state: current message list plus the
message snapshots held by history entries. -/
structure ConvState where
  messages : List ChatMessage
  snapshots : List (List ChatMessage)

/-- One conversation mutation, as performed by the handlers in
`src/main.rs`. -/
inductive ConvStep : ConvState → ConvState → Prop
  | clear (s : ConvState) :
      ConvStep s { s with messages := [] }
  | send (s : ConvState) (agentPrompt : Str) (profile_info : Option ProfileInfo)
      (memFs : MemoryFs) (text : Str) :
      ConvStep s { s with
        messages := composeSend s.messages agentPrompt profile_info memFs text }
  | done (s : ConvState) (fullText : Str) :
      ConvStep s
        { messages := s.messages ++ [ChatMessage.assistant fullText],
          snapshots := s.snapshots ++ [s.messages ++ [ChatMessage.assistant fullText]] }
  | load (s : ConvState) (snap : List ChatMessage) (h : snap ∈ s.snapshots) :
      ConvStep s { s with messages := snap }

/-- Conversation states reachable from a fresh session (empty message
list, empty history). -/
inductive ConvReachable : ConvState → Prop
  | init : ConvReachable ⟨[], []⟩
  | step {s s' : ConvState} (hs : ConvReachable s) (hstep : ConvStep s s') :
      ConvReachable s'

/-- A System message, if present, sits at index 0 and is unique: no
message beyond the head has the System role. -/
def SystemOnlyAtHead (msgs : List ChatMessage) : Prop :=
  ∀ m ∈ msgs.drop 1, m.role ≠ Role.system

theorem systemOnlyAtHead_append (msgs : List ChatMessage) (m : ChatMessage)
    (h : SystemOnlyAtHead msgs) (hm : m.role ≠ Role.system) :
    SystemOnlyAtHead (msgs ++ [m]) := by
  intro x hx
  cases msgs with
  | nil =>
    simp only [List.nil_append, List.drop_succ_cons, List.drop_nil] at hx
    simp at hx
  | cons a rest =>
    simp only [List.cons_append, List.drop_succ_cons, List.drop_zero] at hx
    rw [List.mem_append] at hx
    rcases hx with hx | hx
    · exact h x (by simpa using hx)
    · simp only [List.mem_singleton] at hx
      subst hx
      exact hm

/-- The invariant carried through the reachability induction: the current
conversation and every history snapshot keep System only at the head. -/
def ConvInv (s : ConvState) : Prop :=
  SystemOnlyAtHead s.messages ∧ ∀ snap ∈ s.snapshots, SystemOnlyAtHead snap

theorem systemOnlyAtHead_composeSend (msgs : List ChatMessage)
    (agentPrompt : Str) (profile_info : Option ProfileInfo) (memFs : MemoryFs)
    (text : Str) (h : SystemOnlyAtHead msgs) :
    SystemOnlyAtHead (composeSend msgs agentPrompt profile_info memFs text) := by
  cases msgs with
  | nil =>
    intro x hx
    simp [composeSend] at hx
    subst hx
    simp [ChatMessage.user]
  | cons a rest =>
    have : composeSend (a :: rest) agentPrompt profile_info memFs text =
        (a :: rest) ++ [ChatMessage.user text] := by
      simp [composeSend]
    rw [this]
    exact systemOnlyAtHead_append _ _ h (by simp [ChatMessage.user])

theorem convInv_of_reachable {s : ConvState} (h : ConvReachable s) : ConvInv s := by
  induction h with
  | init =>
    constructor
    · intro m hm; simp at hm
    · intro snap hsnap; simp at hsnap
  | step hs hstep ih =>
    obtain ⟨hmsgs, hsnaps⟩ := ih
    cases hstep with
    | clear =>
      exact ⟨by intro m hm; simp at hm, hsnaps⟩
    | send agentPrompt profile_info memFs text =>
      exact ⟨systemOnlyAtHead_composeSend _ _ _ _ _ hmsgs, hsnaps⟩
    | done fullText =>
      have happ := systemOnlyAtHead_append _ (ChatMessage.assistant fullText)
        hmsgs (by simp [ChatMessage.assistant])
      refine ⟨happ, ?_⟩
      intro snap hsnap
      rw [List.mem_append] at hsnap
      rcases hsnap with hsnap | hsnap
      · exact hsnaps snap hsnap
      · simp only [List.mem_singleton] at hsnap
        subst hsnap
        exact happ
    | load snap hmem =>
      exact ⟨hsnaps snap hmem, hsnaps⟩

/-- C3: at send time a System message is synthesized and prepended exactly
when the conversation is empty — built by `buildSystemPrompt` from the
agent prompt, the active profile's fields and its persisted memory — and
the User message is appended; consequently in every reachable
conversation a System message can only sit at index 0 and is never
duplicated. -/
theorem system_message_synthesis_and_invariant :
    (∀ (agentPrompt : Str) (profile_info : Option ProfileInfo) (memFs : MemoryFs)
        (text : Str),
      composeSend [] agentPrompt profile_info memFs text =
        [ChatMessage.system (buildSystemPrompt agentPrompt profile_info memFs),
         ChatMessage.user text]) ∧
    (∀ (m0 : ChatMessage) (ms : List ChatMessage) (agentPrompt : Str)
        (profile_info : Option ProfileInfo) (memFs : MemoryFs) (text : Str),
      composeSend (m0 :: ms) agentPrompt profile_info memFs text =
        (m0 :: ms) ++ [ChatMessage.user text]) ∧
    (∀ s : ConvState, ConvReachable s → SystemOnlyAtHead s.messages) := by
  refine ⟨?_, ?_, ?_⟩
  · intro agentPrompt profile_info memFs text
    simp [composeSend]
  · intro m0 ms agentPrompt profile_info memFs text
    simp [composeSend]
  · intro s hs
    exact (convInv_of_reachable hs).1

/-- Witness for C3 at concrete inputs: a send from the empty conversation
prepends exactly one System message, and the state reached by
`clear; send` keeps System only at the head. -/
theorem system_message_synthesis_and_invariant_witness :
    (composeSend [] "be brief".toList none (fun _ => none) "hi".toList =
      [ChatMessage.system "be brief".toList, ChatMessage.user "hi".toList]) ∧
    SystemOnlyAtHead
      (ConvState.messages
        ⟨composeSend [] "be brief".toList none (fun _ => none) "hi".toList, []⟩) := by
  constructor
  · have h := system_message_synthesis_and_invariant.1 "be brief".toList none
      (fun _ => none) "hi".toList
    rw [h]
    rfl
  · exact system_message_synthesis_and_invariant.2.2
      ⟨composeSend [] "be brief".toList none (fun _ => none) "hi".toList, []⟩
      (ConvReachable.step ConvReachable.init
        (ConvStep.send ⟨[], []⟩ "be brief".toList none (fun _ => none) "hi".toList))

/-! ## Stream-completion handler and title job (`src/main.rs` lines 1318-1381) -/

/-- The data captured when the title job is spawned (`src/main.rs` lines
1350-1363): the history entry id and the user's first message. -/
structure TitleReq where
  historyId : Str
  userText : Str
deriving DecidableEq

/-- The result of the `ChatEvent::Done` handler (`src/main.rs` lines
1318-1381). -/
structure DoneResult where
  messages : List ChatMessage
  isFirstMessage : Bool
  history : List ChatHistory
  titleJob : Option TitleReq
deriving DecidableEq

/-- The `ChatEvent::Done` handler: append the Assistant message, compute
`is_first_message = messages.len() <= 3` (line 1325), push the history
entry whose title is the first 20 characters of the user text (line 1330),
and spawn the title job exactly under `if is_first_message` (line 1350). -/
def doneHandler (messages : List ChatMessage) (history : List ChatHistory)
    (historyId : Str) (userText : Str) (fullText : Str) : DoneResult :=
  let messages2 := messages ++ [ChatMessage.assistant fullText]
  let isFirst := decide (messages2.length ≤ 3)
  { messages := messages2,
    isFirstMessage := isFirst,
    history := history ++ [⟨historyId, userText.take 20, messages2⟩],
    titleJob := if isFirst then some ⟨historyId, userText⟩ else none }

/-- C4: after the Assistant message is appended, `is_first_message` holds
exactly when the conversation length is at most 3, and the title job is
spawned if and only if `is_first_message` holds. -/
theorem done_handler_first_exchange (messages : List ChatMessage)
    (history : List ChatHistory) (historyId userText fullText : Str) :
    ((doneHandler messages history historyId userText fullText).isFirstMessage = true ↔
      (messages ++ [ChatMessage.assistant fullText]).length ≤ 3) ∧
    ((doneHandler messages history historyId userText fullText).titleJob.isSome = true ↔
      (doneHandler messages history historyId userText fullText).isFirstMessage = true) := by
  constructor
  · simp [doneHandler]
  · rw [doneHandler]
    by_cases h : (messages ++ [ChatMessage.assistant fullText]).length ≤ 3 <;>
      simp [h]

/-- Rust `str::trim_matches(c)`: strip every leading and every trailing
occurrence of the character `c`. -/
def trimMatchesChar (c : Char) (l : Str) : Str :=
  ((l.dropWhile (· = c)).reverse.dropWhile (· = c)).reverse

/-- The title post-processing the code performs (`src/main.rs` line 1366):
`content.trim().trim_matches('"').trim_matches('.')`. -/
def postprocessTitle (content : Str) : Str :=
  trimMatchesChar '.' (trimMatchesChar quoteChar (rustTrim content))

/-- The post-processing as the specification words it: trim whitespace,
strip the surrounding quote characters, then remove a *single trailing*
period.  Modelled from the spec to compare against `postprocessTitle`. -/
def specPostprocessTitle (content : Str) : Str :=
  let t := trimMatchesChar quoteChar (rustTrim content)
  if t.getLast? = some '.' then t.dropLast else t

/-- Overwrite the title of the first history entry with the given id
(`iter_mut().find(...)` at `src/main.rs` lines 1369-1370 and 1165-1166). -/
def setTitleFirst (entryId : Str) (newTitle : Str) :
    List ChatHistory → List ChatHistory
  | [] => []
  | h :: rest =>
    if h.id = entryId then { h with title := newTitle } :: rest
    else h :: setTitleFirst entryId newTitle rest

/-- Whether the history contains an entry with the given id (determines
whether the find succeeds and hence whether `fs::write` runs). -/
def historyHasId (history : List ChatHistory) (entryId : Str) : Bool :=
  history.any fun h => h.id = entryId

/-- Outcome of one title-job run. -/
structure TitleJobResult where
  history : List ChatHistory
  persisted : Bool
  refreshSent : Bool
deriving DecidableEq

/-- The title job body (`src/main.rs` lines 1355-1378): on a successful
response, post-process the content; when the result is non-empty, locate
the entry by id, overwrite its title and persist the history; a
RefreshHistory event is sent on every successful response.  On failure
(`response = none`) nothing happens. -/
def titleJobRun (response : Option Str) (history : List ChatHistory)
    (historyId : Str) : TitleJobResult :=
  match response with
  | none => { history := history, persisted := false, refreshSent := false }
  | some content =>
    let newTitle := postprocessTitle content
    if newTitle.isEmpty then
      { history := history, persisted := false, refreshSent := true }
    else
      { history := setTitleFirst historyId newTitle history,
        persisted := historyHasId history historyId,
        refreshSent := true }

/-- C5 counterexample: the claim says the post-processing removes "a
single trailing period", but `trim_matches('.')` strips *all* leading and
trailing periods: on the response `"Tea.."` the code produces `"Tea"`
where the claimed post-processing would produce `"Tea."`. -/
theorem title_postprocess_counterexample :
    postprocessTitle "Tea..".toList = "Tea".toList ∧
    specPostprocessTitle "Tea..".toList = "Tea.".toList ∧
    postprocessTitle "Tea..".toList ≠ specPostprocessTitle "Tea..".toList := by
  refine ⟨by decide, by decide, by decide⟩

/-- C5 (amended): on a successful title-job response the result is
post-processed by trimming whitespace, then stripping all surrounding
quote characters, then stripping all leading and trailing periods; if the
post-processed title is non-empty, the entry with the matching id gets its
title overwritten, the history store is persisted (the write runs exactly
when the entry is found) and a RefreshHistory event is emitted; if it is
empty, the history — hence the entry's original truncated-text title — is
left unchanged. -/
theorem title_job_postprocess_and_update (content : Str)
    (history : List ChatHistory) (historyId : Str) :
    (postprocessTitle content =
      trimMatchesChar '.' (trimMatchesChar quoteChar (rustTrim content))) ∧
    (postprocessTitle content ≠ [] →
      titleJobRun (some content) history historyId =
        ⟨setTitleFirst historyId (postprocessTitle content) history,
         historyHasId history historyId, true⟩) ∧
    (postprocessTitle content = [] →
      titleJobRun (some content) history historyId = ⟨history, false, true⟩) ∧
    titleJobRun none history historyId = ⟨history, false, false⟩ := by
  refine ⟨rfl, ?_, ?_, rfl⟩
  · intro h
    have hne : (postprocessTitle content).isEmpty = false := by
      cases hpp : postprocessTitle content with
      | nil => exact absurd hpp h
      | cons a rest => rfl
    simp [titleJobRun, hne]
  · intro h
    simp [titleJobRun, h]

/-- Witness for C5 (amended) at a concrete input: the response
`"My Chat."` (with surrounding quotes in the content) yields the title
`My Chat`, overwriting the matching entry and persisting. -/
theorem title_job_postprocess_and_update_witness :
    titleJobRun (some ((String.toList "\"My Chat.\"")))
        [⟨"id1".toList, "My C".toList, []⟩] "id1".toList =
      ⟨[⟨"id1".toList, "My Chat".toList, []⟩], true, true⟩ ∧
    titleJobRun (some "...".toList) [⟨"id1".toList, "My C".toList, []⟩] "id1".toList =
      ⟨[⟨"id1".toList, "My C".toList, []⟩], false, true⟩ := by
  constructor
  · have h := (title_job_postprocess_and_update (String.toList "\"My Chat.\"")
      [⟨"id1".toList, "My C".toList, []⟩] "id1".toList).2.1 (by decide)
    rw [h]
    decide
  · have h := (title_job_postprocess_and_update "...".toList
      [⟨"id1".toList, "My C".toList, []⟩] "id1".toList).2.2.1 (by decide)
    rw [h]

/-! ## The send/stop handler, request task and event loop
(`src/main.rs` lines 1229-1489) -/

/-- `ChatEvent` from `src/state.rs` lines 61-66. -/
inductive ChatEvent
  | chunk (s : Str)
  | done (full : Str)
  | error (msg : Str)
  | refreshHistory
deriving DecidableEq

/-- The orchestrator-visible state: the conversation, the history, the
in-flight task handle slot (`AppState.current_task`) and the send button
label, which the source uses as the Idle/Sending flag (line 1230). -/
structure OrchState where
  messages : List ChatMessage
  history : List ChatHistory
  currentTask : Option Unit
  sendBtnLabel : Str
deriving DecidableEq

/-- The request data captured when the network task starts
(`src/main.rs` line 1430): the composed message list, the model and the
active profile's id. -/
structure RequestInfo where
  composedMessages : List ChatMessage
  model : Str
  profileId : Option Str
deriving DecidableEq

/-- `handle_send_or_stop` (`src/main.rs` lines 1229-1489), merged with the
start of the spawned request task (lines 1391-1431) that composes the
outgoing messages and stores the abort handle: returns the state once the
request is in flight, plus the request data (`none` when no request
starts).  The Stop path aborts and clears the task; the Send path rejects
text that is empty after trimming (line 1249). -/
def handle_send_or_stop (st : OrchState) (text : Str) (agentPrompt : Str)
    (profile_info : Option ProfileInfo) (memFs : MemoryFs) (model : Str) :
    OrchState × Option RequestInfo :=
  if st.sendBtnLabel = "Stop".toList then
    ({ st with currentTask := none, sendBtnLabel := "Send".toList }, none)
  else if (rustTrim text).isEmpty then (st, none)
  else
    let composed := composeSend st.messages agentPrompt profile_info memFs text
    ({ st with
        messages := composed,
        sendBtnLabel := "Stop".toList,
        currentTask := some () }, some ⟨composed, model, profile_info.map (·.id)⟩)

/-- The outcome of `send_chat_messages_stream` (`src/main.rs` line 1433):
either the stream opens and yields a list of chunk contents, or opening
fails with an error rendered to a string (`format!("{:?}", e)`). -/
inductive StreamOutcome
  | opened (chunks : List Str)
  | openFailed (err : Str)
deriving DecidableEq

/-- Concatenation of the chunk contents (the `full_response` accumulator,
`src/main.rs` lines 1437-1441). -/
def strConcat : List Str → Str
  | [] => []
  | s :: rest => s ++ strConcat rest

/-- The events the request task sends through the channel
(`src/main.rs` lines 1433-1484): one Chunk per stream item then Done with
the full accumulated text, or a single Error when the open fails. -/
def requestTaskEvents (outcome : StreamOutcome) : List ChatEvent :=
  match outcome with
  | .openFailed e => [ChatEvent.error e]
  | .opened chunks => chunks.map ChatEvent.chunk ++ [ChatEvent.done (strConcat chunks)]

/-- One step of the main-thread event receiver (`src/main.rs` lines
1295-1384), threading the spawned title jobs: Chunk only updates the
display, Error clears the task and resets the button (lines 1305-1314),
Done runs `doneHandler` and resets the button (lines 1318-1381),
RefreshHistory only redraws the sidebar. -/
def processChatEvent (userText historyId : Str)
    (p : OrchState × List TitleReq) (e : ChatEvent) : OrchState × List TitleReq :=
  match e with
  | .chunk _ => p
  | .refreshHistory => p
  | .error _ =>
    ({ p.1 with currentTask := none, sendBtnLabel := "Send".toList }, p.2)
  | .done full =>
    let r := doneHandler p.1.messages p.1.history historyId userText full
    ({ messages := r.messages, history := r.history,
       currentTask := none, sendBtnLabel := "Send".toList },
     p.2 ++ (match r.titleJob with | some j => [j] | none => []))

/-- Run the receiver loop over a turn's event list. -/
def runEventLoop (userText historyId : Str) (st : OrchState)
    (evs : List ChatEvent) : OrchState × List TitleReq :=
  evs.foldl (processChatEvent userText historyId) (st, [])

/-- The data captured when the memory job is spawned
(`src/main.rs` lines 1447-1453): profile id, model, and the conversation
snapshot including the just-finished assistant reply.  Note it holds no
memory content: the memory file is read inside the job body. -/
structure MemJobArgs where
  profileId : Str
  model : Str
  messagesMem : List ChatMessage
deriving DecidableEq

/-- The memory-job spawn site (`src/main.rs` line 1447): spawned exactly
when a profile id is present. -/
def spawnMemJob (profileId : Option Str) (model : Str)
    (composed : List ChatMessage) (fullResponse : Str) : Option MemJobArgs :=
  profileId.map fun pid => ⟨pid, model, composed ++ [ChatMessage.assistant fullResponse]⟩

/-- The memory job of a finished turn: only the `opened` branch reaches
the spawn site (`src/main.rs` lines 1436-1477). -/
def memJobOfOutcome (req : RequestInfo) (outcome : StreamOutcome) : Option MemJobArgs :=
  match outcome with
  | .openFailed _ => none
  | .opened chunks => spawnMemJob req.profileId req.model req.composedMessages (strConcat chunks)

/-- The result of one whole turn: final state, the events that flowed
through the channel, the spawned title jobs and the spawned memory job. -/
structure TurnResult where
  state : OrchState
  events : List ChatEvent
  titleJobs : List TitleReq
  memJob : Option MemJobArgs
deriving DecidableEq

/-- One whole turn: the send/stop handler, then — when a request started —
the request task's events processed by the receiver loop. -/
def fullTurn (st : OrchState) (text : Str) (agentPrompt : Str)
    (profile_info : Option ProfileInfo) (memFs : MemoryFs) (model : Str)
    (outcome : StreamOutcome) (historyId : Str) : TurnResult :=
  match handle_send_or_stop st text agentPrompt profile_info memFs model with
  | (st1, none) => ⟨st1, [], [], none⟩
  | (st1, some req) =>
    let evs := requestTaskEvents outcome
    let lp := runEventLoop text historyId st1 evs
    ⟨lp.1, evs, lp.2, memJobOfOutcome req outcome⟩

/-- C8: from Idle (button not showing Stop), a send whose text is empty
after trimming is a no-op: the state — conversation included — is
unchanged, no events are emitted (in particular no chunks), and no jobs
are spawned. -/
theorem empty_send_is_noop (st : OrchState) (text agentPrompt : Str)
    (profile_info : Option ProfileInfo) (memFs : MemoryFs) (model : Str)
    (outcome : StreamOutcome) (historyId : Str)
    (hIdle : st.sendBtnLabel ≠ "Stop".toList)
    (hEmpty : (rustTrim text).isEmpty = true) :
    fullTurn st text agentPrompt profile_info memFs model outcome historyId =
      ⟨st, [], [], none⟩ := by
  rw [fullTurn, handle_send_or_stop]
  rw [if_neg hIdle, if_pos hEmpty]

/-- Witness for C8 at a concrete input: whitespace-only text from a fresh
Idle state changes nothing. -/
theorem empty_send_is_noop_witness :
    fullTurn ⟨[], [], none, "Send".toList⟩ "  \n ".toList "p".toList none
        (fun _ => none) "m".toList (StreamOutcome.opened ["x".toList]) "h1".toList =
      ⟨⟨[], [], none, "Send".toList⟩, [], [], none⟩ :=
  empty_send_is_noop ⟨[], [], none, "Send".toList⟩ "  \n ".toList "p".toList none
    (fun _ => none) "m".toList (StreamOutcome.opened ["x".toList]) "h1".toList
    (by decide) (by decide)

/-- C6: when opening the stream fails, the only event is an Error carrying
the rendered cause, the task handle is cleared and the button returns to
Send (Idle), the just-appended User message stays in the conversation
(which equals the composed message list, not rolled back), and the
history is untouched — no entry is written for the turn, and no
background job is spawned. -/
theorem stream_open_failure_behavior (st : OrchState) (text agentPrompt : Str)
    (profile_info : Option ProfileInfo) (memFs : MemoryFs) (model : Str)
    (err : Str) (historyId : Str)
    (hIdle : st.sendBtnLabel ≠ "Stop".toList)
    (hNonempty : (rustTrim text).isEmpty = false) :
    (fullTurn st text agentPrompt profile_info memFs model
        (StreamOutcome.openFailed err) historyId).events = [ChatEvent.error err] ∧
    (fullTurn st text agentPrompt profile_info memFs model
        (StreamOutcome.openFailed err) historyId).state.currentTask = none ∧
    (fullTurn st text agentPrompt profile_info memFs model
        (StreamOutcome.openFailed err) historyId).state.sendBtnLabel = "Send".toList ∧
    (fullTurn st text agentPrompt profile_info memFs model
        (StreamOutcome.openFailed err) historyId).state.messages =
      composeSend st.messages agentPrompt profile_info memFs text ∧
    (fullTurn st text agentPrompt profile_info memFs model
        (StreamOutcome.openFailed err) historyId).state.messages.getLast? =
      some (ChatMessage.user text) ∧
    (fullTurn st text agentPrompt profile_info memFs model
        (StreamOutcome.openFailed err) historyId).state.history = st.history ∧
    (fullTurn st text agentPrompt profile_info memFs model
        (StreamOutcome.openFailed err) historyId).titleJobs = [] ∧
    (fullTurn st text agentPrompt profile_info memFs model
        (StreamOutcome.openFailed err) historyId).memJob = none := by
  have hstep : fullTurn st text agentPrompt profile_info memFs model
      (StreamOutcome.openFailed err) historyId =
      ⟨{ st with
          messages := composeSend st.messages agentPrompt profile_info memFs text,
          sendBtnLabel := "Send".toList, currentTask := none },
        [ChatEvent.error err], [], none⟩ := by
    rw [fullTurn, handle_send_or_stop]
    rw [if_neg hIdle, if_neg (by rw [hNonempty]; exact Bool.false_ne_true)]
    rfl
  rw [hstep]
  refine ⟨rfl, rfl, rfl, rfl, ?_, rfl, rfl, rfl⟩
  rw [composeSend]
  exact List.getLast?_concat _

/-- Witness for C6 at a concrete input. -/
theorem stream_open_failure_behavior_witness :
    (fullTurn ⟨[], [], none, "Send".toList⟩ "hi".toList "p".toList none
        (fun _ => none) "m".toList (StreamOutcome.openFailed "conn refused".toList)
        "h1".toList).events = [ChatEvent.error "conn refused".toList] ∧
    (fullTurn ⟨[], [], none, "Send".toList⟩ "hi".toList "p".toList none
        (fun _ => none) "m".toList (StreamOutcome.openFailed "conn refused".toList)
        "h1".toList).state.messages.getLast? = some (ChatMessage.user "hi".toList) ∧
    (fullTurn ⟨[], [], none, "Send".toList⟩ "hi".toList "p".toList none
        (fun _ => none) "m".toList (StreamOutcome.openFailed "conn refused".toList)
        "h1".toList).state.history = [] := by
  have h := stream_open_failure_behavior ⟨[], [], none, "Send".toList⟩ "hi".toList
    "p".toList none (fun _ => none) "m".toList "conn refused".toList "h1".toList
    (by decide) (by decide)
  exact ⟨h.1, h.2.2.2.2.1, h.2.2.2.2.2.1⟩

/-! ## Memory-compaction job (`src/main.rs` lines 1446-1477) -/

/-- The memory prompt (`src/main.rs` lines 1458-1467) with the existing
memory substituted into it. -/
def memoryPromptText (existing : Str) : Str :=
  ("You are a memory module. Based on the recent conversation above " ++
   "and the existing knowledge about the user, update the Long-term Memory. " ++
   "Existing Knowledge:\n").toList ++ existing ++
  ("\n\nRequirements:\n" ++
   "1. Output a concise, bulleted list of facts, preferences, and important " ++
   "context about the user.\n" ++
   "2. Include new info from this chat.\n" ++
   "3. Keep it brief and relevant for future assistance.\n" ++
   "4. Output ONLY the list, no headers or conversational text.").toList

/-- The request message list the job sends (`src/main.rs` lines
1456-1470): the captured conversation snapshot plus a User message built
from the memory file content read at job start
(`fs::read_to_string(...).unwrap_or_default()`). -/
def memJobRequestMessages (args : MemJobArgs) (memFsAtStart : MemoryFs) :
    List ChatMessage :=
  let existing := (memFsAtStart args.profileId).getD []
  args.messagesMem ++ [ChatMessage.user (memoryPromptText existing)]

/-- The memory-file state after the job finishes (`src/main.rs` lines
1470-1475): on a successful response whose trimmed content is non-empty,
the profile's blob is overwritten with that trimmed content; otherwise
the file system is untouched. -/
def memJobNewFs (args : MemJobArgs) (memFsAtStart : MemoryFs)
    (response : Option Str) : MemoryFs :=
  match response with
  | none => memFsAtStart
  | some content =>
    let new_memory := rustTrim content
    if new_memory.isEmpty then memFsAtStart
    else fun pid => if pid = args.profileId then some new_memory else memFsAtStart pid

/-- C7: the memory job is spawned exactly when a profile is active; its
request depends only on the memory-file content at job start (the spawn
captures no memory snapshot — `MemJobArgs` holds only the profile id, the
model and the conversation), and the prompt embeds the content read at
job start; on a successful response with non-empty trimmed content the
profile's blob is replaced wholesale with that content (other profiles'
blobs untouched); on failure or an empty response the file system is left
untouched. -/
theorem memory_job_fresh_read_and_replacement :
    (∀ (profileId : Option Str) (model : Str) (composed : List ChatMessage)
        (full : Str),
      (spawnMemJob profileId model composed full).isSome = profileId.isSome) ∧
    (∀ (args : MemJobArgs) (f g : MemoryFs),
      f args.profileId = g args.profileId →
      memJobRequestMessages args f = memJobRequestMessages args g) ∧
    (∀ (args : MemJobArgs) (f : MemoryFs),
      memJobRequestMessages args f =
        args.messagesMem ++
          [ChatMessage.user (memoryPromptText ((f args.profileId).getD []))]) ∧
    (∀ (args : MemJobArgs) (f : MemoryFs) (content : Str),
      (rustTrim content).isEmpty = false →
        memJobNewFs args f (some content) args.profileId = some (rustTrim content) ∧
        ∀ pid, pid ≠ args.profileId → memJobNewFs args f (some content) pid = f pid) ∧
    (∀ (args : MemJobArgs) (f : MemoryFs), memJobNewFs args f none = f) ∧
    (∀ (args : MemJobArgs) (f : MemoryFs) (content : Str),
      (rustTrim content).isEmpty = true → memJobNewFs args f (some content) = f) := by
  refine ⟨?_, ?_, ?_, ?_, ?_, ?_⟩
  · intro profileId model composed full
    cases profileId <;> rfl
  · intro args f g hfg
    rw [memJobRequestMessages, memJobRequestMessages, hfg]
  · intro args f
    rfl
  · intro args f content hne
    constructor
    · rw [memJobNewFs]
      simp only [hne, Bool.false_eq_true, if_false]
      simp
    · intro pid hpid
      rw [memJobNewFs]
      simp only [hne, Bool.false_eq_true, if_false]
      simp [hpid]
  · intro args f
    rfl
  · intro args f content he
    rw [memJobNewFs]
    simp [he]

/-- Witness for C7 at concrete inputs (the scenario of spec §8): memory
blob `- likes tea`, successful response `- likes tea\n- works in Berlin`
replaces the blob wholesale; an all-whitespace response leaves it
untouched. -/
theorem memory_job_fresh_read_and_replacement_witness :
    memJobNewFs ⟨"p1".toList, "m".toList, []⟩
        (fun _ => some "- likes tea".toList)
        (some "- likes tea\n- works in Berlin".toList) "p1".toList =
      some "- likes tea\n- works in Berlin".toList ∧
    memJobNewFs ⟨"p1".toList, "m".toList, []⟩
        (fun _ => some "- likes tea".toList) (some "  \n ".toList) "p1".toList =
      some "- likes tea".toList := by
  constructor
  · have h := (memory_job_fresh_read_and_replacement.2.2.2.1
      ⟨"p1".toList, "m".toList, []⟩ (fun _ => some "- likes tea".toList)
      "- likes tea\n- works in Berlin".toList (by decide)).1
    rw [h]
    decide
  · have h := memory_job_fresh_read_and_replacement.2.2.2.2.2
      ⟨"p1".toList, "m".toList, []⟩ (fun _ => some "- likes tea".toList)
      "  \n ".toList (by decide)
    rw [h]

/-! ## History-entry rename (`src/main.rs` lines 1160-1174) -/

/-- The rename-confirm click handler: when the entry text is empty it
returns before touching anything (line 1162); otherwise it overwrites the
title of the entry with the matching id and persists the history (the
write runs exactly when the entry is found).  The second component
records whether `fs::write` ran. -/
def renameConfirm (newTitle : Str) (history : List ChatHistory)
    (itemId : Str) : List ChatHistory × Bool :=
  if newTitle.isEmpty then (history, false)
  else (setTitleFirst itemId newTitle history, historyHasId history itemId)

/-- C10: confirming a rename with the empty string is a no-op: the
in-memory history list (hence every entry's title) is unchanged and
nothing is persisted. -/
theorem rename_empty_is_noop (history : List ChatHistory) (itemId : Str) :
    renameConfirm [] history itemId = (history, false) := rfl

end ArchLLM
